import Mathlib

/-!
Shallow embedding of the WaterBot device-control and scheduling core
(`waterbot/config.py`, `waterbot/scheduler.py`, `waterbot/gpio/handler.py`,
`waterbot/gpio/interface.py`) together with proofs about the behaviour of
the embedded operations.

Python dictionaries are modelled as association lists whose update
operation (`setKey`) overwrites the first binding in place or appends at
the end, matching CPython's insertion-ordered dict semantics.  File
persistence (`save_schedules`) is modelled by a boolean parameter
`saveOk` saying whether the disk write succeeds; on success the
`persisted` component of the state becomes a copy of the in-memory table,
on failure it is left unchanged and the call reports failure, exactly as
`save_schedules` returns `False` on `IOError`.
-/

namespace Waterbot

/-- Lookup in an association list (first binding wins), modelling
Python `d[k]` / `d.get(k)`. -/
def getKey {κ : Type} [DecidableEq κ] {α : Type} (k : κ) :
    List (κ × α) → Option α
  | [] => none
  | (k', v) :: rest => if k = k' then some v else getKey k rest

/-- Update in an association list: overwrite the first binding for `k`
in place, or append a new binding at the end, modelling Python
`d[k] = v` on an insertion-ordered dict. -/
def setKey {κ : Type} [DecidableEq κ] {α : Type} (k : κ) (v : α) :
    List (κ × α) → List (κ × α)
  | [] => [(k, v)]
  | (k', v') :: rest =>
    if k = k' then (k, v) :: rest else (k', v') :: setKey k v rest

/-- Deletion from an association list (first binding for `k`), modelling
Python `del d[k]`. -/
def eraseKey {κ : Type} [DecidableEq κ] {α : Type} (k : κ) :
    List (κ × α) → List (κ × α)
  | [] => []
  | (k', v') :: rest =>
    if k = k' then rest else (k', v') :: eraseKey k rest

/-! ### Time-string helpers

`add_schedule` validates times with `re.match(r"^\d{2}:\d{2}$", time)`;
the Python `$` anchor also matches just before one trailing newline.
Digits are restricted to ASCII here (the claims only exercise ASCII
input). -/

/-- ASCII decimal digit test, modelling `\d` on the inputs of interest. -/
def isDig (c : Char) : Bool :=
  decide (48 ≤ c.toNat) && decide (c.toNat ≤ 57)

/-- Result of `re.match(r"^\d{2}:\d{2}$", s)` being truthy: exactly two
digits, a colon, two digits, optionally followed by a single trailing
newline (Python `$`). -/
def matchesTimeRe (s : String) : Bool :=
  match s.data with
  | [a, b, c, d, e] => isDig a && isDig b && (c == ':') && isDig d && isDig e
  | [a, b, c, d, e, f] =>
      isDig a && isDig b && (c == ':') && isDig d && isDig e && (f == '\n')
  | _ => false

/-- Split a character list at its first colon. -/
def breakColon : List Char → Option (List Char × List Char)
  | [] => none
  | c :: rest =>
    if c = ':' then some ([], rest)
    else
      match breakColon rest with
      | none => none
      | some (l, r) => some (c :: l, r)

/-- Numeric value of a digit string. -/
def digitsToNat (l : List Char) : Nat :=
  l.foldl (fun n c => 10 * n + (c.toNat - 48)) 0

/-- Success of `datetime.strptime(s, "%H:%M")` (used by
`_schedule_device_action`): one or two digits for the hour (≤ 23), a
colon, one or two digits for the minute (≤ 59), nothing else. -/
def strptimeOk (s : String) : Bool :=
  match breakColon s.data with
  | none => false
  | some (h, m) =>
    !h.isEmpty && decide (h.length ≤ 2) && h.all isDig &&
    !m.isEmpty && decide (m.length ≤ 2) && m.all isDig &&
    decide (digitsToNat h ≤ 23) && decide (digitsToNat m ≤ 59)

/-! ### Sorting time strings

Python's `list.sort()` on strings orders lexicographically by code
point; `strLeB` is that order and `sortTimes` is insertion sort with
respect to it, which produces the same (sorted, multiset-equal) list as
the source's in-place sort. -/

/-- Lexicographic code-point comparison of character lists. -/
def charListLe : List Char → List Char → Bool
  | [], _ => true
  | _ :: _, [] => false
  | a :: as, b :: bs =>
    if a < b then true else if b < a then false else charListLe as bs

/-- Python string `<=` (lexicographic by code point). -/
def strLeB (s t : String) : Bool :=
  charListLe s.data t.data

/-- Insert a time into an already sorted list, keeping it sorted. -/
def insertSorted (x : String) : List String → List String
  | [] => [x]
  | y :: ys => if strLeB x y then x :: y :: ys else y :: insertSorted x ys

/-- Insertion sort by `strLeB`, modelling `list.sort()` on the
(string-valued) time lists. -/
def sortTimes : List String → List String
  | [] => []
  | x :: xs => insertSorted x (sortTimes xs)

/-- Adjacent-pairs sortedness check for a list of time strings. -/
def sortedB : List String → Bool
  | [] => true
  | [_] => true
  | a :: b :: rest => strLeB a b && sortedB (b :: rest)

/-! ### Schedule Store (`waterbot/config.py`)

`DEVICE_SCHEDULES` is a dict `device → action → list of time strings`;
`DEVICE_TO_PIN` is the static device registry. -/

/-- The device registry `DEVICE_TO_PIN`: device name to GPIO pin. -/
abbrev Registry := List (String × Nat)

/-- The in-memory schedule table shape of `DEVICE_SCHEDULES`. -/
abbrev Schedules := List (String × List (String × List String))

/-- State of `waterbot.config`: the in-memory `DEVICE_SCHEDULES` table and
the contents of the JSON schedule file (`persisted`). -/
structure ConfigState where
  deviceSchedules : Schedules
  persisted : Schedules
deriving DecidableEq, Repr

/-- Truth of `time in DEVICE_SCHEDULES[d][a]` on a schedule table:
both keys present and the time contained in the list. -/
def storeHasB (s : Schedules) (d a t : String) : Bool :=
  match getKey d s with
  | none => false
  | some am =>
    match getKey a am with
    | none => false
    | some ts => decide (t ∈ ts)

/-- The time list stored under device `d` and action `a` (empty when a
key is missing), i.e. `DEVICE_SCHEDULES.get(d, {}).get(a, [])`. -/
def timesAt (st : ConfigState) (d a : String) : List String :=
  (getKey a ((getKey d st.deviceSchedules).getD [])).getD []

/-- Every time list in the table is sorted ascending. -/
def allSortedB (s : Schedules) : Bool :=
  s.all fun p => p.2.all fun q => sortedB q.2

/-- No empty action lists and no empty device maps appear in the table. -/
def noEmptyB (s : Schedules) : Bool :=
  s.all fun p => !p.2.isEmpty && p.2.all fun q => !q.2.isEmpty

/-- Embedding of `config.add_schedule(device, action, time)`.  `saveOk`
says whether the `save_schedules` disk write would succeed.  Returns the
boolean result together with the new configuration state.  Mirrors the
source line by line: three validation checks, then ensure the nested
keys exist, then append-and-sort only when the time is absent (in which
case the result is the persistence result), else a no-op success. -/
def add_schedule (saveOk : Bool) (reg : Registry)
    (device action time : String) (st : ConfigState) : Bool × ConfigState :=
  if (getKey device reg).isNone then (false, st)
  else if ¬(action = "on" ∨ action = "off") then (false, st)
  else if !matchesTimeRe time then (false, st)
  else
    let s0 := st.deviceSchedules
    let s1 := if (getKey device s0).isNone then setKey device [] s0 else s0
    let am1 := (getKey device s1).getD []
    let s2 :=
      if (getKey action am1).isNone then setKey device (setKey action [] am1) s1
      else s1
    let am2 := (getKey device s2).getD []
    let ts := (getKey action am2).getD []
    if time ∈ ts then (true, { st with deviceSchedules := s2 })
    else
      let ts' := sortTimes (ts ++ [time])
      let s3 := setKey device (setKey action ts' am2) s2
      if saveOk then (true, { deviceSchedules := s3, persisted := s3 })
      else (false, { st with deviceSchedules := s3 })

/-- Embedding of `config.remove_schedule(device, action, time)`: when the
exact triple is present, remove the time (first occurrence, as Python's
`list.remove`), prune a now-empty action list and then a now-empty
device map, and persist; otherwise return `False` with the state
untouched. -/
def remove_schedule (saveOk : Bool) (device action time : String)
    (st : ConfigState) : Bool × ConfigState :=
  match getKey device st.deviceSchedules with
  | none => (false, st)
  | some am =>
    match getKey action am with
    | none => (false, st)
    | some ts =>
      if time ∈ ts then
        let ts' := ts.erase time
        let am' :=
          if ts'.isEmpty then eraseKey action am else setKey action ts' am
        let s' :=
          if am'.isEmpty then eraseKey device st.deviceSchedules
          else setKey device am' st.deviceSchedules
        if saveOk then (true, { deviceSchedules := s', persisted := s' })
        else (false, { st with deviceSchedules := s' })
      else (false, st)

/-- Embedding of `config.get_schedules(device)` for a truthy (non-empty)
device name: `dict(DEVICE_SCHEDULES.get(device, {}))`.  (For a falsy
device argument the source returns the whole table instead; no claim
exercises that branch.) -/
def get_schedules (st : ConfigState) (device : String) :
    List (String × List String) :=
  (getKey device st.deviceSchedules).getD []

/-- Key sets of the outer and inner maps are duplicate-free, as Python
dict keys always are. -/
def wfB (s : Schedules) : Bool :=
  decide (s.map Prod.fst).Nodup &&
    s.all fun p => decide ((p.2.map Prod.fst).Nodup)

/-! ### Device Scheduler (`waterbot/scheduler.py`)

`DeviceScheduler.scheduled_jobs` is a list of dicts with keys
`device`, `action`, `time` and the live job handle; the handle itself
carries no information the claims need, so a job is modelled by its
triple. -/

/-- One entry of `DeviceScheduler.scheduled_jobs`. -/
structure JobInfo where
  device : String
  action : String
  time : String
deriving DecidableEq, Repr

/-- Combined state of the config module and the scheduler's live job
list. -/
structure SysState where
  cfg : ConfigState
  jobs : List JobInfo
deriving DecidableEq, Repr

/-- Embedding of `DeviceScheduler._schedule_device_action`: the callback
is registered (appended to `scheduled_jobs`) unless
`datetime.strptime(time_str, "%H:%M")` raises, in which case the method
returns early and no job is created.  (The `schedule` library's own
`at()` accepts every time string that passes this `strptime` check.) -/
def scheduleDeviceAction (device action time : String)
    (jobs : List JobInfo) : List JobInfo :=
  if strptimeOk time then jobs ++ [⟨device, action, time⟩] else jobs

/-- Embedding of `DeviceScheduler.add_schedule`: delegate to
`config.add_schedule` and only on its success also register the live
job. -/
def DeviceScheduler.add_schedule (saveOk : Bool) (reg : Registry)
    (device action time : String) (sys : SysState) : Bool × SysState :=
  let r := Waterbot.add_schedule saveOk reg device action time sys.cfg
  if r.1 then
    (true, ⟨r.2, scheduleDeviceAction device action time sys.jobs⟩)
  else (false, ⟨r.2, sys.jobs⟩)

/-- The scheduler's cancel loop: remove the first job whose triple
matches, leave the rest untouched (the source `break`s after the first
match). -/
def cancelFirst (device action time : String) :
    List JobInfo → List JobInfo
  | [] => []
  | j :: rest =>
    if j.device = device ∧ j.action = action ∧ j.time = time then rest
    else j :: cancelFirst device action time rest

/-- Embedding of `DeviceScheduler.remove_schedule`: cancel the first
matching live job (if any), then delegate to `config.remove_schedule`
and return its result. -/
def DeviceScheduler.remove_schedule (saveOk : Bool)
    (device action time : String) (sys : SysState) : Bool × SysState :=
  let jobs' := cancelFirst device action time sys.jobs
  let r := Waterbot.remove_schedule saveOk device action time sys.cfg
  (r.1, ⟨r.2, jobs'⟩)

/-- One dynamic `add_schedule` command: the persistence outcome for this
call and the triple. -/
abbrev AddCmd := Bool × String × String × String

/-- Run a sequence of dynamic `DeviceScheduler.add_schedule` calls. -/
def runAdds (reg : Registry) : List AddCmd → SysState → SysState
  | [], sys => sys
  | c :: cs, sys =>
    runAdds reg cs (DeviceScheduler.add_schedule c.1 reg c.2.1 c.2.2.1 c.2.2.2 sys).2

/-- Every live job's triple is present in the in-memory schedule store. -/
def jobsSubStoreB (sys : SysState) : Bool :=
  sys.jobs.all fun j => storeHasB sys.cfg.deviceSchedules j.device j.action j.time

/-! ### Device Controller (`waterbot/gpio/handler.py`)

State functions model the dicts `device_status` and `device_timers` (a
registered device always has an entry in both after `_setup_devices`,
so total functions are faithful) and the pin levels behind the GPIO
interface.  Timer handles are numbered by a freshness counter; the
side-effect order of a call is recorded as an event trace: cancelling a
pending timer, writing a pin, starting a new timer. -/

/-- Observable side effects of a controller call, in program order. -/
inductive GEvent where
  | cancelTimer : Nat → GEvent
  | pinWrite : Nat → Bool → GEvent
  | startTimer : Nat → Int → GEvent
deriving DecidableEq, Repr

/-- Controller state: `device_status`, `device_timers` (the pending
timer handle per device), the pin levels, and the next fresh timer
handle. -/
structure CState where
  deviceStatus : String → Bool
  deviceTimers : String → Option Nat
  pinStates : Nat → Bool
  nextId : Nat

/-- Python truthiness of the `timeout: Optional[int]` argument as used
by `if timeout:` — `None` and `0` are falsy. -/
def pyTruthy : Option Int → Bool
  | none => false
  | some n => decide (n ≠ 0)

/-- Embedding of `DeviceController.turn_on`: unknown device fails with
no effect; otherwise cancel any pending timer, set the pin HIGH and the
status true, and when the timeout is truthy start a fresh auto-off
timer and record its handle. -/
def turn_on (reg : Registry) (device : String) (timeout : Option Int)
    (st : CState) : Bool × CState × List GEvent :=
  match getKey device reg with
  | none => (false, st, [])
  | some pin =>
    let cancelled :=
      match st.deviceTimers device with
      | some t => [GEvent.cancelTimer t]
      | none => []
    let st0 :=
      { st with deviceTimers := fun d => if d = device then none else st.deviceTimers d }
    let st1 :=
      { st0 with
        pinStates := fun p => if p = pin then true else st0.pinStates p
        deviceStatus := fun d => if d = device then true else st0.deviceStatus d }
    if pyTruthy timeout then
      let tid := st1.nextId
      let st2 :=
        { st1 with
          deviceTimers := fun d => if d = device then some tid else st1.deviceTimers d
          nextId := tid + 1 }
      (true, st2,
        cancelled ++ [GEvent.pinWrite pin true, GEvent.startTimer tid (timeout.getD 0)])
    else (true, st1, cancelled ++ [GEvent.pinWrite pin true])

/-- Embedding of `DeviceController.turn_off`: symmetric to `turn_on`
with the pin written LOW, the status set false, and a truthy timeout
starting an auto-on timer. -/
def turn_off (reg : Registry) (device : String) (timeout : Option Int)
    (st : CState) : Bool × CState × List GEvent :=
  match getKey device reg with
  | none => (false, st, [])
  | some pin =>
    let cancelled :=
      match st.deviceTimers device with
      | some t => [GEvent.cancelTimer t]
      | none => []
    let st0 :=
      { st with deviceTimers := fun d => if d = device then none else st.deviceTimers d }
    let st1 :=
      { st0 with
        pinStates := fun p => if p = pin then false else st0.pinStates p
        deviceStatus := fun d => if d = device then false else st0.deviceStatus d }
    if pyTruthy timeout then
      let tid := st1.nextId
      let st2 :=
        { st1 with
          deviceTimers := fun d => if d = device then some tid else st1.deviceTimers d
          nextId := tid + 1 }
      (true, st2,
        cancelled ++ [GEvent.pinWrite pin false, GEvent.startTimer tid (timeout.getD 0)])
    else (true, st1, cancelled ++ [GEvent.pinWrite pin false])

/-! ### Pin Driver backends (`waterbot/gpio/interface.py`) -/

/-- State of the emulation backend: `pin_states` and `setup_pins`. -/
structure EmulationGpio where
  pin_states : List (Nat × Bool)
  setup_pins : List (Nat × String)
deriving DecidableEq, Repr

/-- Embedding of `EmulationGPIO.output`: raises `RuntimeError` when the
pin was never configured, else records the value. -/
def EmulationGpio.output (g : EmulationGpio) (pin : Nat) (value : Bool) :
    Except String EmulationGpio :=
  if (getKey pin g.setup_pins).isNone then
    Except.error ("Pin " ++ toString pin ++ " not setup")
  else Except.ok { g with pin_states := setKey pin value g.pin_states }

/-- Embedding of `EmulationGPIO.setup`. -/
def EmulationGpio.setup (g : EmulationGpio) (pin : Nat) (mode : String) :
    EmulationGpio :=
  { g with setup_pins := setKey pin mode g.setup_pins
           pin_states := setKey pin false g.pin_states }

/-- State of the test-recording backend (`MockGPIO`). -/
structure MockGpio where
  setup_calls : List (Nat × String)
  output_calls : List (Nat × Bool)
  cleanup_called : Bool
  pin_states : List (Nat × Bool)
deriving DecidableEq, Repr

/-- Embedding of `MockGPIO.output`: unconditionally records the call and
the pin state; it never raises, whether or not the pin was set up. -/
def MockGpio.output (g : MockGpio) (pin : Nat) (value : Bool) :
    Except String MockGpio :=
  Except.ok
    { g with output_calls := g.output_calls ++ [(pin, value)]
             pin_states := setKey pin value g.pin_states }

/-! ### Concrete fixtures used by witnesses and counterexamples -/

/-- A two-device registry, as in the spec's worked scenario. -/
def sampleReg : Registry := [("pump", 17), ("light", 18)]

/-- Empty configuration state (no schedules in memory or on disk). -/
def cfg0 : ConfigState := ⟨[], []⟩

/-- Empty combined scheduler state. -/
def sys0 : SysState := ⟨cfg0, []⟩

/-- Controller state right after `_setup_devices`: everything off, no
timers pending, no timer handle ever issued. -/
def cInit : CState :=
  ⟨fun _ => false, fun _ => none, fun _ => false, 0⟩

/-- Controller state where device `pump` has pending timer handle 0 and
the next fresh handle is 1. -/
def cPend : CState :=
  ⟨fun _ => false, fun d => if d = "pump" then some 0 else none,
    fun _ => false, 1⟩

/-- Fresh emulation backend (no pins configured). -/
def emu0 : EmulationGpio := ⟨[], []⟩

/-- Fresh mock backend (no calls recorded). -/
def mock0 : MockGpio := ⟨[], [], false, []⟩

/-! ### Association-list lemmas -/

theorem getKey_setKey_self {κ : Type} [DecidableEq κ] {α : Type}
    (k : κ) (v : α) (m : List (κ × α)) : getKey k (setKey k v m) = some v := by
  induction m with
  | nil => simp [getKey, setKey]
  | cons p rest ih =>
    obtain ⟨k', v'⟩ := p
    by_cases h : k = k' <;> simp [getKey, setKey, h, ih]

theorem getKey_setKey_ne {κ : Type} [DecidableEq κ] {α : Type}
    {k k' : κ} (v : α) (m : List (κ × α)) (h : k' ≠ k) :
    getKey k' (setKey k v m) = getKey k' m := by
  induction m with
  | nil => simp [getKey, setKey, h]
  | cons p rest ih =>
    obtain ⟨k₀, v₀⟩ := p
    by_cases hk : k = k₀
    · subst hk; simp [getKey, setKey, h]
    · by_cases hk' : k' = k₀ <;> simp [getKey, setKey, hk, hk', ih]

theorem mem_setKey {κ : Type} [DecidableEq κ] {α : Type}
    {k : κ} {v : α} {m : List (κ × α)} {x : κ × α}
    (hx : x ∈ setKey k v m) : x = (k, v) ∨ x ∈ m := by
  induction m with
  | nil => simpa [setKey] using hx
  | cons p rest ih =>
    obtain ⟨k₀, v₀⟩ := p
    by_cases hk : k = k₀
    · simp only [setKey, if_pos hk, List.mem_cons] at hx
      rcases hx with h | h
      · exact Or.inl h
      · exact Or.inr (List.mem_cons_of_mem _ h)
    · simp only [setKey, if_neg hk, List.mem_cons] at hx
      rcases hx with h | h
      · exact Or.inr (by simp [h])
      · rcases ih h with h' | h'
        · exact Or.inl h'
        · exact Or.inr (List.mem_cons_of_mem _ h')

theorem mem_eraseKey {κ : Type} [DecidableEq κ] {α : Type}
    {k : κ} {m : List (κ × α)} {x : κ × α}
    (hx : x ∈ eraseKey k m) : x ∈ m := by
  induction m with
  | nil => simp [eraseKey] at hx
  | cons p rest ih =>
    obtain ⟨k₀, v₀⟩ := p
    by_cases hk : k = k₀
    · simp only [eraseKey, if_pos hk] at hx
      exact List.mem_cons_of_mem _ hx
    · simp only [eraseKey, if_neg hk, List.mem_cons] at hx
      rcases hx with h | h
      · simp [h]
      · exact List.mem_cons_of_mem _ (ih h)

theorem getKey_mem {κ : Type} [DecidableEq κ] {α : Type}
    {k : κ} {m : List (κ × α)} {v : α}
    (h : getKey k m = some v) : (k, v) ∈ m := by
  induction m with
  | nil => simp [getKey] at h
  | cons p rest ih =>
    obtain ⟨k₀, v₀⟩ := p
    by_cases hk : k = k₀
    · subst hk
      have hv : v₀ = v := by simpa [getKey] using h
      simp [hv]
    · simp only [getKey, if_neg hk] at h
      exact List.mem_cons_of_mem _ (ih h)

theorem setKey_setKey_same {κ : Type} [DecidableEq κ] {α : Type}
    (k : κ) (v w : α) (m : List (κ × α)) :
    setKey k v (setKey k w m) = setKey k v m := by
  induction m with
  | nil => simp [setKey]
  | cons p rest ih =>
    obtain ⟨k₀, v₀⟩ := p
    by_cases h : k = k₀ <;> simp [setKey, h, ih]

theorem charListLe_total (a b : List Char) :
    charListLe a b = true ∨ charListLe b a = true := by
  induction a generalizing b with
  | nil => exact Or.inl rfl
  | cons x xs ih =>
    cases b with
    | nil => exact Or.inr rfl
    | cons y ys =>
      by_cases hxy : x < y
      · left; simp [charListLe, hxy]
      · by_cases hyx : y < x
        · right; simp [charListLe, hyx, hxy]
        · rcases ih ys with h | h
          · left; simp [charListLe, hxy, hyx, h]
          · right; simp [charListLe, hxy, hyx, h]

theorem strLeB_total (s t : String) :
    strLeB s t = true ∨ strLeB t s = true :=
  charListLe_total s.data t.data

theorem mem_insertSorted {a x : String} {l : List String} :
    a ∈ insertSorted x l ↔ a = x ∨ a ∈ l := by
  induction l with
  | nil => simp [insertSorted]
  | cons y ys ih =>
    by_cases h : strLeB x y
    · simp [insertSorted, h]
    · simp only [insertSorted, if_neg h, List.mem_cons, ih]
      tauto

theorem mem_sortTimes {a : String} {l : List String} :
    a ∈ sortTimes l ↔ a ∈ l := by
  induction l with
  | nil => simp [sortTimes]
  | cons x xs ih => simp [sortTimes, mem_insertSorted, ih]

theorem count_insertSorted (t x : String) (l : List String) :
    (insertSorted x l).count t = (x :: l).count t := by
  induction l with
  | nil => simp [insertSorted]
  | cons y ys ih =>
    by_cases h : strLeB x y
    · simp [insertSorted, h]
    · simp only [insertSorted, if_neg h]
      rw [List.count_cons, List.count_cons, ih, List.count_cons,
        List.count_cons]
      omega

theorem count_sortTimes (t : String) (l : List String) :
    (sortTimes l).count t = l.count t := by
  induction l with
  | nil => rfl
  | cons x xs ih =>
    rw [sortTimes, count_insertSorted, List.count_cons, List.count_cons, ih]

theorem sortedB_insertSorted {x : String} {l : List String}
    (hl : sortedB l = true) : sortedB (insertSorted x l) = true := by
  induction l with
  | nil => rfl
  | cons y ys ih =>
    by_cases h : strLeB x y
    · simpa [insertSorted, h, sortedB] using hl
    · have hyx : strLeB y x = true := by
        rcases strLeB_total x y with h' | h'
        · exact absurd h' h
        · exact h'
      cases ys with
      | nil => simp [insertSorted, h, sortedB, hyx]
      | cons z zs =>
        have hyz : strLeB y z = true := by
          simp only [sortedB, Bool.and_eq_true] at hl
          exact hl.1
        have hzs : sortedB (z :: zs) = true := by
          simp only [sortedB, Bool.and_eq_true] at hl
          exact hl.2
        have ihz := ih hzs
        by_cases hz : strLeB x z
        · simp [insertSorted, h, hz, sortedB, hyx] at ihz ⊢
          exact ihz
        · simp [insertSorted, h, hz, sortedB, hyz] at ihz ⊢
          exact ihz

theorem sortedB_sortTimes (l : List String) :
    sortedB (sortTimes l) = true := by
  induction l with
  | nil => rfl
  | cons x xs ih => exact sortedB_insertSorted ih

/-! ### Store lemmas -/

theorem storeHasB_iff_mem (s : Schedules) (d a t : String) :
    storeHasB s d a t = true ↔ t ∈ (getKey a ((getKey d s).getD [])).getD [] := by
  unfold storeHasB
  rcases hdev : getKey d s with _ | am
  · simp [getKey]
  · rcases hact : getKey a am with _ | ts
    · simp [hact]
    · simp [hact]

theorem storeHasB_iff_mem_timesAt (st : ConfigState) (d a t : String) :
    storeHasB st.deviceSchedules d a t = true ↔ t ∈ timesAt st d a :=
  storeHasB_iff_mem st.deviceSchedules d a t

/-- Normal form of `add_schedule` once all three validations pass: a
no-op success when the time is already stored, else insert-and-sort in
memory, with the file updated exactly when the save succeeds and the
result reporting the save outcome. -/
theorem add_schedule_main (saveOk : Bool) (reg : Registry)
    (d a t : String) (st : ConfigState)
    (h1 : (getKey d reg).isNone = false)
    (h2 : a = "on" ∨ a = "off")
    (h3 : matchesTimeRe t = true) :
    add_schedule saveOk reg d a t st =
      (let s3 := setKey d (setKey a (sortTimes (timesAt st d a ++ [t]))
          ((getKey d st.deviceSchedules).getD [])) st.deviceSchedules
       if t ∈ timesAt st d a then (true, st)
       else (saveOk, ⟨s3, if saveOk then s3 else st.persisted⟩)) := by
  unfold add_schedule timesAt
  rcases hdev : getKey d st.deviceSchedules with _ | am0
  · simp [hdev, h1, h2, h3, getKey_setKey_self, setKey_setKey_same, getKey,
      setKey]
    cases saveOk <;> simp
  · rcases hact : getKey a am0 with _ | ts0
    · simp [hdev, hact, h1, h2, h3, getKey_setKey_self, setKey_setKey_same,
        getKey]
      cases saveOk <;> simp
    · simp only [hdev, h1, h2, h3]
      simp [hdev, hact, getKey_setKey_self, setKey_setKey_same]
      by_cases hmem : t ∈ ts0
      · simp [hmem]
      · simp [hmem]
        cases saveOk <;> simp

/-- Adding a schedule never removes anything from the in-memory table:
every triple present before an `add_schedule` call (whatever its
outcome) is still present afterwards. -/
theorem add_schedule_mono (saveOk : Bool) (reg : Registry)
    (d a t d' a' t' : String) (st : ConfigState)
    (h : storeHasB st.deviceSchedules d' a' t' = true) :
    storeHasB (add_schedule saveOk reg d a t st).2.deviceSchedules d' a' t' = true := by
  by_cases h1 : (getKey d reg).isNone
  · simpa [add_schedule, h1] using h
  by_cases h2 : a = "on" ∨ a = "off"
  case neg => simpa [add_schedule, h1, h2] using h
  by_cases h3 : matchesTimeRe t
  case neg => simpa [add_schedule, h1, h2, h3] using h
  rw [add_schedule_main saveOk reg d a t st (Bool.eq_false_iff.mpr h1) h2 (by simpa using h3)]
  by_cases hmem : t ∈ timesAt st d a
  · simpa [hmem] using h
  simp only [hmem, if_false]
  rw [storeHasB_iff_mem] at h ⊢
  by_cases hdd : d' = d
  · subst hdd
    rw [getKey_setKey_self]
    rcases hdev : getKey d' st.deviceSchedules with _ | am0
    · rw [hdev] at h; simp [getKey] at h
    · rw [hdev] at h
      by_cases haa : a' = a
      · subst haa
        simp only [Option.getD_some, getKey_setKey_self]
        rw [mem_sortTimes]
        refine List.mem_append_left _ ?_
        simpa [timesAt, hdev] using h
      · rw [Option.getD_some, getKey_setKey_ne _ _ haa]
        simpa [hdev] using h
  · rw [getKey_setKey_ne _ _ hdd]
    exact h

/-- When `add_schedule` reports success, the requested triple is in the
in-memory table afterwards. -/
theorem add_schedule_success_mem (saveOk : Bool) (reg : Registry)
    (d a t : String) (st : ConfigState)
    (h : (add_schedule saveOk reg d a t st).1 = true) :
    storeHasB (add_schedule saveOk reg d a t st).2.deviceSchedules d a t = true := by
  by_cases h1 : (getKey d reg).isNone
  · simp [add_schedule, h1] at h
  by_cases h2 : a = "on" ∨ a = "off"
  case neg => simp [add_schedule, h1, h2] at h
  by_cases h3 : matchesTimeRe t
  case neg => simp [add_schedule, h1, h2, h3] at h
  rw [add_schedule_main saveOk reg d a t st (Bool.eq_false_iff.mpr h1) h2 (by simpa using h3)]
  by_cases hmem : t ∈ timesAt st d a
  · simp only [hmem, if_true]
    exact (storeHasB_iff_mem_timesAt st d a t).mpr hmem
  · simp only [hmem, if_false]
    rw [storeHasB_iff_mem]
    simp only [getKey_setKey_self, Option.getD_some]
    rw [mem_sortTimes]
    exact List.mem_append_right _ (List.mem_singleton.mpr rfl)

theorem all_sorted_of_getKey {s : Schedules} {d : String}
    {am : List (String × List String)}
    (hs : allSortedB s = true) (hd : getKey d s = some am) :
    (am.all fun q => sortedB q.2) = true := by
  unfold allSortedB at hs
  rw [List.all_eq_true] at hs
  simpa using hs (d, am) (getKey_mem hd)

theorem allSortedB_setKey {s : Schedules} {d : String}
    {am : List (String × List String)}
    (hs : allSortedB s = true) (ham : (am.all fun q => sortedB q.2) = true) :
    allSortedB (setKey d am s) = true := by
  unfold allSortedB at hs ⊢
  rw [List.all_eq_true] at hs ⊢
  intro p hp
  rcases mem_setKey hp with h | h
  · rw [h]; simpa using ham
  · exact hs p h

theorem amAll_setKey {am : List (String × List String)} {a : String}
    {ts : List String}
    (ham : (am.all fun q => sortedB q.2) = true) (hts : sortedB ts = true) :
    ((setKey a ts am).all fun q => sortedB q.2) = true := by
  rw [List.all_eq_true] at ham ⊢
  intro q hq
  rcases mem_setKey hq with h | h
  · rw [h]; simpa using hts
  · exact ham q h

/-- Every `add_schedule` call keeps all time lists sorted ascending. -/
theorem add_schedule_sorted (saveOk : Bool) (reg : Registry)
    (d a t : String) (st : ConfigState)
    (hs : allSortedB st.deviceSchedules = true) :
    allSortedB (add_schedule saveOk reg d a t st).2.deviceSchedules = true := by
  by_cases h1 : (getKey d reg).isNone
  · simpa [add_schedule, h1] using hs
  by_cases h2 : a = "on" ∨ a = "off"
  case neg => simpa [add_schedule, h1, h2] using hs
  by_cases h3 : matchesTimeRe t
  case neg => simpa [add_schedule, h1, h2, h3] using hs
  rw [add_schedule_main saveOk reg d a t st (Bool.eq_false_iff.mpr h1) h2 (by simpa using h3)]
  by_cases hmem : t ∈ timesAt st d a
  · simpa [hmem] using hs
  simp only [hmem, if_false]
  refine allSortedB_setKey hs (amAll_setKey ?_ (sortedB_sortTimes _))
  rcases hdev : getKey d st.deviceSchedules with _ | am0
  · simp
  · simpa using all_sorted_of_getKey hs hdev

theorem getKey_eq_none_of_not_mem_keys {κ : Type} [DecidableEq κ] {α : Type}
    {k : κ} {m : List (κ × α)} (h : k ∉ m.map Prod.fst) :
    getKey k m = none := by
  induction m with
  | nil => rfl
  | cons p rest ih =>
    obtain ⟨k₀, v₀⟩ := p
    simp only [List.map_cons, List.mem_cons] at h
    push_neg at h
    simp [getKey, h.1, ih h.2]

theorem getKey_eraseKey_self {κ : Type} [DecidableEq κ] {α : Type}
    {k : κ} {m : List (κ × α)} (h : (m.map Prod.fst).Nodup) :
    getKey k (eraseKey k m) = none := by
  induction m with
  | nil => rfl
  | cons p rest ih =>
    obtain ⟨k₀, v₀⟩ := p
    simp only [List.map_cons, List.nodup_cons] at h
    by_cases hk : k = k₀
    · subst hk
      simp only [eraseKey, if_pos rfl]
      exact getKey_eq_none_of_not_mem_keys h.1
    · simp [eraseKey, hk, getKey, ih h.2]

/-- Pruning shape used by `remove_schedule`: deleting or overwriting the
action entry and then deleting or overwriting the device entry never
introduces an empty node, provided the starting table had none. -/
theorem noEmptyB_after_prune (s0 : Schedules) (d a : String)
    (am : List (String × List String)) (ts' : List String)
    (hne : noEmptyB s0 = true) (hdev : getKey d s0 = some am) :
    noEmptyB (if (if ts'.isEmpty then eraseKey a am else setKey a ts' am).isEmpty
      then eraseKey d s0
      else setKey d (if ts'.isEmpty then eraseKey a am else setKey a ts' am) s0) =
      true := by
  have hsall := hne
  unfold noEmptyB at hsall
  rw [List.all_eq_true] at hsall
  have ham := hsall (d, am) (getKey_mem hdev)
  simp only [Bool.and_eq_true] at ham
  have haminner : ∀ q ∈ am, (!q.2.isEmpty) = true := by
    have := ham.2
    rw [List.all_eq_true] at this
    exact this
  set am' := if ts'.isEmpty then eraseKey a am else setKey a ts' am with ham'
  have ham'inner : ∀ q ∈ am', (!q.2.isEmpty) = true := by
    intro q hq
    rw [ham'] at hq
    by_cases hts : ts'.isEmpty
    · rw [if_pos hts] at hq
      exact haminner q (mem_eraseKey hq)
    · rw [if_neg hts] at hq
      rcases mem_setKey hq with h | h
      · rw [h]
        simpa using hts
      · exact haminner q h
  by_cases hempty : am'.isEmpty
  · rw [if_pos hempty]
    unfold noEmptyB
    rw [List.all_eq_true]
    intro p hp
    exact hsall p (mem_eraseKey hp)
  · rw [if_neg hempty]
    unfold noEmptyB
    rw [List.all_eq_true]
    intro p hp
    rcases mem_setKey hp with h | h
    · rw [h]
      simp only [Bool.and_eq_true]
      refine ⟨by simpa using hempty, ?_⟩
      rw [List.all_eq_true]
      exact ham'inner
    · exact hsall p h

/-- The function `remove_schedule` reports success exactly when the
triple was present and the save succeeded. -/
theorem remove_schedule_fst (saveOk : Bool) (d a t : String)
    (st : ConfigState) :
    (remove_schedule saveOk d a t st).1 =
      (storeHasB st.deviceSchedules d a t && saveOk) := by
  unfold remove_schedule storeHasB
  rcases hdev : getKey d st.deviceSchedules with _ | am
  · simp [hdev]
  · rcases hact : getKey a am with _ | ts
    · simp [hdev, hact]
    · by_cases hmem : t ∈ ts
      · simp only [hdev, hact]
        simp only [hmem, if_true, decide_eq_true_eq]
        cases saveOk <;> simp [hmem]
      · simp [hdev, hact, hmem]

theorem wfB_nodups {s : Schedules} (h : wfB s = true) :
    (s.map Prod.fst).Nodup ∧
      ∀ d am, getKey d s = some am → (am.map Prod.fst).Nodup := by
  unfold wfB at h
  rw [Bool.and_eq_true] at h
  refine ⟨of_decide_eq_true h.1, fun d am hd => ?_⟩
  have h2 := h.2
  rw [List.all_eq_true] at h2
  exact of_decide_eq_true (by simpa using h2 (d, am) (getKey_mem hd))

/-! ### Claim theorems -/

/-- C1 (counterexample): `add_schedule` does not validate the time's
range.  With device `pump` registered, the out-of-range time `99:99`
passes the `^\d{2}:\d{2}$` regex, so the call returns `True` and both
the in-memory table and the persisted file gain the entry — refuting the
claim that any hour > 23 or minute > 59 is rejected without mutation. -/
theorem add_schedule_range_cex :
    (add_schedule true sampleReg "pump" "on" "99:99" cfg0).1 = true ∧
    storeHasB (add_schedule true sampleReg "pump" "on" "99:99" cfg0).2.deviceSchedules
      "pump" "on" "99:99" = true ∧
    (add_schedule true sampleReg "pump" "on" "99:99" cfg0).2 ≠ cfg0 := by
  refine ⟨rfl, rfl, ?_⟩
  decide

/-- C1 (amended): `add_schedule` validates device membership, action
membership in {on, off}, and the time's *format* (`^\d{2}:\d{2}$`, two
digits, colon, two digits) — but not the hour/minute range — and
returns `False` on any of these validation failures without mutating
the in-memory table or the persisted file. -/
theorem add_schedule_validation (saveOk : Bool) (reg : Registry)
    (device action time : String) (st : ConfigState)
    (h : getKey device reg = none ∨ ¬(action = "on" ∨ action = "off") ∨
      matchesTimeRe time = false) :
    add_schedule saveOk reg device action time st = (false, st) := by
  unfold add_schedule
  rcases h with h | h | h
  · simp [h]
  · by_cases hd : (getKey device reg).isNone
    · simp [hd]
    · simp [hd, h]
  · by_cases hd : (getKey device reg).isNone
    · simp [hd]
    · by_cases ha : action = "on" ∨ action = "off"
      · simp [hd, ha, h]
      · simp [hd, ha]

/-- Witness for the amended C1: the malformed time `8:00` is rejected
with no state change. -/
theorem add_schedule_validation_w :
    matchesTimeRe "8:00" = false ∧
    add_schedule true sampleReg "pump" "on" "8:00" cfg0 = (false, cfg0) :=
  ⟨by decide,
    add_schedule_validation true sampleReg "pump" "on" "8:00" cfg0
      (Or.inr (Or.inr (by decide)))⟩

/-- C4: after a successful `add_schedule`, `get_schedules(device)`
contains the added time under the given action, and all time lists in
the store remain sorted ascending (in the Python code-point order on
strings, which on HH:MM strings is chronological order). -/
theorem add_then_get_contains (saveOk : Bool) (reg : Registry)
    (d a t : String) (st : ConfigState) (_hd : d ≠ "")
    (hsucc : (add_schedule saveOk reg d a t st).1 = true) :
    t ∈ (getKey a (get_schedules (add_schedule saveOk reg d a t st).2 d)).getD [] ∧
    (allSortedB st.deviceSchedules = true →
      allSortedB (add_schedule saveOk reg d a t st).2.deviceSchedules = true) := by
  constructor
  · unfold get_schedules
    exact (storeHasB_iff_mem _ d a t).mp
      (add_schedule_success_mem saveOk reg d a t st hsucc)
  · exact fun hs => add_schedule_sorted saveOk reg d a t st hs

/-- Witness for C4: adding `08:00` for `pump on` to the empty store and
reading it back. -/
theorem add_then_get_contains_w :
    ("pump" ≠ "") ∧
    (add_schedule true sampleReg "pump" "on" "08:00" cfg0).1 = true ∧
    "08:00" ∈ (getKey "on"
      (get_schedules (add_schedule true sampleReg "pump" "on" "08:00" cfg0).2
        "pump")).getD [] :=
  ⟨by decide, by decide,
    (add_then_get_contains true sampleReg "pump" "on" "08:00" cfg0
      (by decide) (by decide)).1⟩

/-- C5: `add_schedule` is idempotent.  For a valid triple whose time is
not yet stored, the first call succeeds, the second call with the same
triple also reports success, changes nothing, and the store holds
exactly one copy of the time. -/
theorem add_schedule_idem (reg : Registry) (d a t : String) (st : ConfigState)
    (h1 : (getKey d reg).isNone = false)
    (h2 : a = "on" ∨ a = "off")
    (h3 : matchesTimeRe t = true)
    (h4 : t ∉ timesAt st d a) :
    (add_schedule true reg d a t st).1 = true ∧
    (add_schedule true reg d a t (add_schedule true reg d a t st).2).1 = true ∧
    (add_schedule true reg d a t (add_schedule true reg d a t st).2).2 =
      (add_schedule true reg d a t st).2 ∧
    (timesAt (add_schedule true reg d a t st).2 d a).count t = 1 := by
  have hmain := add_schedule_main true reg d a t st h1 h2 h3
  rw [hmain]
  simp only [h4, if_neg, if_false, if_true]
  set s3 := setKey d (setKey a (sortTimes (timesAt st d a ++ [t]))
    ((getKey d st.deviceSchedules).getD [])) st.deviceSchedules with hs3
  have htimes : timesAt (⟨s3, s3⟩ : ConfigState) d a =
      sortTimes (timesAt st d a ++ [t]) := by
    simp [timesAt, hs3, getKey_setKey_self]
  have hmem2 : t ∈ timesAt (⟨s3, s3⟩ : ConfigState) d a := by
    rw [htimes, mem_sortTimes]
    exact List.mem_append_right _ (List.mem_singleton.mpr rfl)
  have hmain2 := add_schedule_main true reg d a t (⟨s3, s3⟩ : ConfigState) h1 h2 h3
  rw [hmain2]
  simp only [hmem2, if_true]
  refine ⟨trivial, trivial, trivial, ?_⟩
  rw [htimes, count_sortTimes, List.count_append]
  rw [List.count_eq_zero.mpr h4]
  simp

/-- Witness for C5 on the empty store with `pump on 08:00`. -/
theorem add_schedule_idem_w :
    (getKey "pump" sampleReg).isNone = false ∧
    ("on" = "on" ∨ "on" = "off") ∧
    matchesTimeRe "08:00" = true ∧
    "08:00" ∉ timesAt cfg0 "pump" "on" ∧
    (timesAt (add_schedule true sampleReg "pump" "on" "08:00" cfg0).2
      "pump" "on").count "08:00" = 1 :=
  ⟨by decide, Or.inl rfl, by decide, by decide,
    (add_schedule_idem sampleReg "pump" "on" "08:00" cfg0 (by decide)
      (Or.inl rfl) (by decide) (by decide)).2.2.2⟩

/-- C6: `remove_schedule` on a triple that is not present returns
`False` and leaves the whole state (memory and file) unchanged; on a
present triple it never leaves an empty node behind: with duplicate-free
dict keys, when the removed time was the last one under its action the
action key disappears, and when that action was the device's last the
device key disappears too. -/
theorem remove_schedule_props (saveOk : Bool) (d a t : String)
    (st : ConfigState) :
    (storeHasB st.deviceSchedules d a t = false →
      remove_schedule saveOk d a t st = (false, st)) ∧
    (noEmptyB st.deviceSchedules = true →
      noEmptyB (remove_schedule saveOk d a t st).2.deviceSchedules = true) ∧
    (wfB st.deviceSchedules = true →
      ∀ am ts, getKey d st.deviceSchedules = some am → getKey a am = some ts →
        t ∈ ts → (ts.erase t).isEmpty = true →
        getKey a ((getKey d
          (remove_schedule saveOk d a t st).2.deviceSchedules).getD []) = none) ∧
    (wfB st.deviceSchedules = true →
      ∀ am ts, getKey d st.deviceSchedules = some am → getKey a am = some ts →
        t ∈ ts → (ts.erase t).isEmpty = true → (eraseKey a am).isEmpty = true →
        getKey d (remove_schedule saveOk d a t st).2.deviceSchedules = none) := by
  refine ⟨?_, ?_, ?_, ?_⟩
  · intro h
    unfold remove_schedule
    unfold storeHasB at h
    rcases hdev : getKey d st.deviceSchedules with _ | am
    · simp [hdev]
    · simp only [hdev] at h
      rcases hact : getKey a am with _ | ts
      · simp [hdev, hact]
      · simp only [hact] at h
        have hni : t ∉ ts := by simpa using h
        simp [hdev, hact, hni]
  · intro hne
    unfold remove_schedule
    rcases hdev : getKey d st.deviceSchedules with _ | am
    · simpa [hdev] using hne
    · rcases hact : getKey a am with _ | ts
      · simpa [hdev, hact] using hne
      · by_cases hmem : t ∈ ts
        · simp only [hdev, hact, hmem, if_true]
          have key := noEmptyB_after_prune st.deviceSchedules d a am
            (ts.erase t) hne hdev
          cases saveOk <;> simpa using key
        · simpa [hdev, hact, hmem] using hne
  · intro hwf am ts hdev hact hmem hts'
    obtain ⟨houter, hinner⟩ := wfB_nodups hwf
    unfold remove_schedule
    simp only [hdev, hact, hmem, if_true, hts']
    by_cases hempty : (eraseKey a am).isEmpty
    · cases saveOk <;>
        simp [hempty, getKey_eraseKey_self houter, getKey]
    · cases saveOk <;>
        simp [hempty, getKey_setKey_self, getKey_eraseKey_self (hinner d am hdev)]
  · intro hwf am ts hdev hact hmem hts' hempty
    obtain ⟨houter, _⟩ := wfB_nodups hwf
    unfold remove_schedule
    simp only [hdev, hact, hmem, if_true, hts']
    cases saveOk <;> simp [hempty, getKey_eraseKey_self houter]

/-- Witness for C6: removing from the empty store fails without change,
and removing the single entry of a one-entry store prunes both the
action and the device node, leaving no empty nodes. -/
theorem remove_schedule_props_w :
    storeHasB cfg0.deviceSchedules "pump" "on" "08:00" = false ∧
    remove_schedule true "pump" "on" "08:00" cfg0 = (false, cfg0) ∧
    noEmptyB (⟨[("pump", [("on", ["08:00"])])],
      [("pump", [("on", ["08:00"])])]⟩ : ConfigState).deviceSchedules = true ∧
    noEmptyB (remove_schedule true "pump" "on" "08:00"
      (⟨[("pump", [("on", ["08:00"])])],
        [("pump", [("on", ["08:00"])])]⟩ : ConfigState)).2.deviceSchedules = true ∧
    getKey "pump" (remove_schedule true "pump" "on" "08:00"
      (⟨[("pump", [("on", ["08:00"])])],
        [("pump", [("on", ["08:00"])])]⟩ : ConfigState)).2.deviceSchedules = none :=
  ⟨by decide,
    (remove_schedule_props true "pump" "on" "08:00" cfg0).1 (by decide),
    by decide,
    (remove_schedule_props true "pump" "on" "08:00"
      (⟨[("pump", [("on", ["08:00"])])],
        [("pump", [("on", ["08:00"])])]⟩ : ConfigState)).2.1 (by decide),
    (remove_schedule_props true "pump" "on" "08:00"
      (⟨[("pump", [("on", ["08:00"])])],
        [("pump", [("on", ["08:00"])])]⟩ : ConfigState)).2.2.2 (by decide)
      [("on", ["08:00"])] ["08:00"] (by decide) (by decide) (by decide)
      (by decide) (by decide)⟩

/-- C7: the scheduler's dynamic `remove_schedule` returns exactly the
store's success or failure — present-and-saved — irrespective of the
live job list, while the job list loses precisely the first matching
live job (if any) and the configuration is updated exactly as the store
call dictates.  In particular a persisted entry with no live job is
still removed. -/
theorem scheduler_remove_delegates (saveOk : Bool) (d a t : String)
    (sys : SysState) :
    (DeviceScheduler.remove_schedule saveOk d a t sys).1 =
      (storeHasB sys.cfg.deviceSchedules d a t && saveOk) ∧
    (DeviceScheduler.remove_schedule saveOk d a t sys).2.jobs =
      cancelFirst d a t sys.jobs ∧
    (DeviceScheduler.remove_schedule saveOk d a t sys).2.cfg =
      (remove_schedule saveOk d a t sys.cfg).2 :=
  ⟨remove_schedule_fst saveOk d a t sys.cfg, rfl, rfl⟩

/-- One dynamic scheduler add preserves "every live job's triple is in
the store": old jobs stay covered because `add_schedule` only grows the
table, and the possible new job's triple is exactly the one the
successful store call just inserted. -/
theorem scheduler_step_sub (saveOk : Bool) (reg : Registry)
    (d a t : String) (sys : SysState)
    (hinv : jobsSubStoreB sys = true) :
    jobsSubStoreB (DeviceScheduler.add_schedule saveOk reg d a t sys).2 = true := by
  unfold DeviceScheduler.add_schedule
  unfold jobsSubStoreB at hinv ⊢
  rw [List.all_eq_true] at hinv
  by_cases hok : (add_schedule saveOk reg d a t sys.cfg).1 = true
  · simp only [hok, if_true]
    rw [List.all_eq_true]
    intro j hj
    unfold scheduleDeviceAction at hj
    by_cases hstr : strptimeOk t = true
    · simp only [hstr, if_true, List.mem_append, List.mem_singleton] at hj
      rcases hj with hj | hj
      · exact add_schedule_mono saveOk reg d a t j.device j.action j.time
          sys.cfg (hinv j hj)
      · subst hj
        exact add_schedule_success_mem saveOk reg d a t sys.cfg hok
    · simp only [hstr, if_false] at hj
      exact add_schedule_mono saveOk reg d a t j.device j.action j.time
        sys.cfg (hinv j hj)
  · simp only [hok, if_false]
    rw [List.all_eq_true]
    intro j hj
    exact add_schedule_mono saveOk reg d a t j.device j.action j.time
      sys.cfg (hinv j hj)

/-- C2 (counterexample): calling the scheduler's dynamic `add_schedule`
twice with the same valid triple creates two live jobs for that one
persisted Schedule Entry — the second store call is an idempotent no-op
success, after which `_schedule_device_action` registers a second,
duplicate job.  This refutes the claim that no triple is ever
represented by more than one live job. -/
theorem scheduler_dup_jobs_cex :
    (runAdds sampleReg
      [(true, "pump", "on", "08:00"), (true, "pump", "on", "08:00")] sys0).jobs =
      [⟨"pump", "on", "08:00"⟩, ⟨"pump", "on", "08:00"⟩] := by decide

/-- C2 (amended): for every sequence of dynamic `addSchedule` calls, a
live job is created only when the store call succeeds, and every live
job's triple is contained in the persisted store (the live job set never
gets ahead of the store); however, the same triple may come to be
represented by more than one live job when `addSchedule` is repeated
with identical arguments. -/
theorem scheduler_jobs_subset (reg : Registry) :
    (∀ cmds sys, jobsSubStoreB sys = true →
      jobsSubStoreB (runAdds reg cmds sys) = true) ∧
    (∀ saveOk d a t sys,
      (add_schedule saveOk reg d a t sys.cfg).1 = false →
      (DeviceScheduler.add_schedule saveOk reg d a t sys).2.jobs = sys.jobs) := by
  constructor
  · intro cmds
    induction cmds with
    | nil => intro sys h; exact h
    | cons c cs ih =>
      intro sys h
      exact ih _ (scheduler_step_sub c.1 reg c.2.1 c.2.2.1 c.2.2.2 sys h)
  · intro saveOk d a t sys hfail
    simp [DeviceScheduler.add_schedule, hfail]

/-- Witness for the amended C2: one successful add on the empty system
keeps the live job set inside the store. -/
theorem scheduler_jobs_subset_w :
    jobsSubStoreB sys0 = true ∧
    jobsSubStoreB (runAdds sampleReg [(true, "pump", "on", "08:00")] sys0) = true :=
  ⟨by decide,
    (scheduler_jobs_subset sampleReg).1 [(true, "pump", "on", "08:00")] sys0
      (by decide)⟩

/-- C3: `turn_on` and `turn_off` on a device name missing from the
registry return `False`, write no pin (empty event trace), and leave the
status map, timer map and every other piece of controller state
untouched. -/
theorem turn_unknown_no_effect (reg : Registry) (device : String)
    (timeout : Option Int) (st : CState)
    (h : getKey device reg = none) :
    turn_on reg device timeout st = (false, st, []) ∧
    turn_off reg device timeout st = (false, st, []) := by
  constructor
  · simp [turn_on, h]
  · simp [turn_off, h]

/-- Witness for C3: device `pond` is not registered. -/
theorem turn_unknown_no_effect_w :
    getKey "pond" sampleReg = none ∧
    turn_on sampleReg "pond" (some 3) cInit = (false, cInit, []) ∧
    turn_off sampleReg "pond" none cInit = (false, cInit, []) :=
  ⟨rfl, (turn_unknown_no_effect sampleReg "pond" (some 3) cInit rfl).1,
    (turn_unknown_no_effect sampleReg "pond" none cInit rfl).2⟩

/-- C9: on a registered device with a pending auto-off timer `t`, the
first side effect of `turn_on` is cancelling `t` — before the pin write
and before any new timer starts — and afterwards `t` is no longer the
device's recorded timer: the handle is the fresh `st.nextId` when a
truthy timeout requests a new timer, and `none` otherwise, so at most
one timer per device is ever live. -/
theorem turn_on_cancels_pending (reg : Registry) (device : String)
    (timeout : Option Int) (st : CState) (t : Nat)
    (hreg : (getKey device reg).isSome = true)
    (hpend : st.deviceTimers device = some t)
    (hfresh : t < st.nextId) :
    (turn_on reg device timeout st).1 = true ∧
    (∃ pin, getKey device reg = some pin ∧
      (turn_on reg device timeout st).2.2 =
        GEvent.cancelTimer t :: GEvent.pinWrite pin true ::
          (if pyTruthy timeout then
            [GEvent.startTimer st.nextId (timeout.getD 0)] else [])) ∧
    (turn_on reg device timeout st).2.1.deviceTimers device ≠ some t ∧
    (pyTruthy timeout = true →
      (turn_on reg device timeout st).2.1.deviceTimers device = some st.nextId) ∧
    (pyTruthy timeout = false →
      (turn_on reg device timeout st).2.1.deviceTimers device = none) := by
  rw [Option.isSome_iff_exists] at hreg
  obtain ⟨pin, hpin⟩ := hreg
  by_cases ht : pyTruthy timeout
  · refine ⟨?_, ⟨pin, hpin, ?_⟩, ?_, ?_, ?_⟩ <;>
      simp [turn_on, hpin, hpend, ht]
    omega
  · refine ⟨?_, ⟨pin, hpin, ?_⟩, ?_, ?_, ?_⟩ <;>
      simp [turn_on, hpin, hpend, ht]

/-- Witness for C9: `pump` has pending timer 0; a re-`turn_on` with a
5-second timeout cancels it first and records the fresh handle 1. -/
theorem turn_on_cancels_pending_w :
    (getKey "pump" sampleReg).isSome = true ∧
    cPend.deviceTimers "pump" = some 0 ∧ 0 < cPend.nextId ∧
    (turn_on sampleReg "pump" (some 5) cPend).2.1.deviceTimers "pump" ≠ some 0 :=
  ⟨rfl, rfl, by decide,
    (turn_on_cancels_pending sampleReg "pump" (some 5) cPend 0 rfl rfl
      (by decide)).2.2.1⟩

/-- C10: on a registered device, a call with `timeout = 0` behaves
exactly like a call with no timeout (Python `if timeout:` treats both
as falsy): it succeeds, sets status and pin, and leaves no auto-toggle
timer pending. -/
theorem timeout_zero_like_none (reg : Registry) (device : String)
    (st : CState) (h : (getKey device reg).isSome = true) :
    turn_on reg device (some 0) st = turn_on reg device none st ∧
    (turn_on reg device (some 0) st).1 = true ∧
    (turn_on reg device (some 0) st).2.1.deviceTimers device = none ∧
    (turn_on reg device (some 0) st).2.1.deviceStatus device = true ∧
    turn_off reg device (some 0) st = turn_off reg device none st ∧
    (turn_off reg device (some 0) st).1 = true ∧
    (turn_off reg device (some 0) st).2.1.deviceTimers device = none ∧
    (turn_off reg device (some 0) st).2.1.deviceStatus device = false := by
  rw [Option.isSome_iff_exists] at h
  obtain ⟨pin, hpin⟩ := h
  refine ⟨?_, ?_, ?_, ?_, ?_, ?_, ?_, ?_⟩ <;>
    simp [turn_on, turn_off, hpin, pyTruthy]

/-- Witness for C10 on the fresh controller state and device `pump`. -/
theorem timeout_zero_like_none_w :
    (getKey "pump" sampleReg).isSome = true ∧
    turn_on sampleReg "pump" (some 0) cInit = turn_on sampleReg "pump" none cInit :=
  ⟨rfl, (timeout_zero_like_none sampleReg "pump" cInit rfl).1⟩

/-- C8 (counterexample): the test-recording backend does not raise on a
write to an unconfigured pin — on a fresh mock (no `setup` call ever
made) `output(17, True)` succeeds and silently records the call,
refuting the claim that both the emulation and the test-recording
backends fail on an unconfigured write. -/
theorem mock_output_unconfigured_cex :
    mock0.setup_calls = [] ∧
    mock0.output 17 true =
      Except.ok (⟨[], [(17, true)], false, [(17, true)]⟩ : MockGpio) :=
  ⟨rfl, rfl⟩

/-- C8 (amended): only the emulation backend enforces the
configure-before-write contract — its `output` raises a `RuntimeError`
naming the pin when the pin was never configured — while the
test-recording backend records every write unconditionally and never
raises. -/
theorem output_before_configure (g : EmulationGpio) (m : MockGpio)
    (pin pin' : Nat) (v v' : Bool)
    (h : getKey pin g.setup_pins = none) :
    g.output pin v = Except.error ("Pin " ++ toString pin ++ " not setup") ∧
    m.output pin' v' =
      Except.ok (⟨m.setup_calls, m.output_calls ++ [(pin', v')],
        m.cleanup_called, setKey pin' v' m.pin_states⟩ : MockGpio) := by
  constructor
  · simp [EmulationGpio.output, h]
  · rfl

/-- Witness for the amended C8 on fresh backends and pin 17. -/
theorem output_before_configure_w :
    getKey 17 emu0.setup_pins = none ∧
    emu0.output 17 true = Except.error "Pin 17 not setup" :=
  ⟨rfl, (output_before_configure emu0 mock0 17 17 true true rfl).1⟩

end Waterbot
